import Mathlib

/-!
Verification of the `goyouscore` HTTP-client middleware core.

Go strings and byte slices are modelled as `List Nat` (one entry per byte,
each `< 256` on real inputs); ASCII literals are injected with `asciiBytes`.
Fallible Go code (`error` returns) is modelled with `Except String`.
The pluggable `Cache` and the inner transport (`HttpRequestDoer`) are
modelled as function parameters, and the decorator's observable interaction
with them (Get calls, Set calls, inner dispatch count) is returned
explicitly as a trace.
-/

namespace Youscore

/-- Bytes of an ASCII string literal (UTF-8 agrees with code points here). -/
def asciiBytes (s : String) : List Nat := s.data.map Char.toNat

/-- ASCII lower-casing of one byte (`A`-`Z` fold by adding 32). -/
def toLowerByte (c : Nat) : Nat := if 65 ≤ c ∧ c ≤ 90 then c + 32 else c

/-- Go `strings.ToLower` restricted to what comparison with an all-ASCII
string can observe.  ASCII capitals fold by adding 32, and the only two
Unicode code points whose lower case is ASCII fold to it: U+0130 LATIN
CAPITAL LETTER I WITH DOT ABOVE (UTF-8 bytes 196 176) to `i`, and
U+212A KELVIN SIGN (UTF-8 bytes 226 132 170) to `k`.  Every other
non-ASCII rune (and every invalid UTF-8 byte, which Go folds to the
non-ASCII replacement character) lower-cases to a non-ASCII byte
sequence under Go's `ToLower`, and this model likewise keeps a non-ASCII
byte in the output, so equality with an ASCII deny-list entry agrees
with Go on every byte string.  (The special lead bytes 196 and 226 can
never be UTF-8 continuation bytes, so Go's decoder always decodes these
sequences exactly where this scan matches them.) -/
def lowerBytes : List Nat → List Nat
  | [] => []
  | 196 :: 176 :: rest => 105 :: lowerBytes rest
  | 226 :: 132 :: 170 :: rest => 107 :: lowerBytes rest
  | c :: rest => toLowerByte c :: lowerBytes rest

/-- Model of Go `strings.Cut(s, sep)` for a one-byte separator: the part
before the first occurrence of `sep` and the part after it (empty when
`sep` does not occur, like Go's `after` with `found = false`). -/
def cutByte : List Nat → Nat → List Nat × List Nat
  | [], _ => ([], [])
  | c :: rest, sep =>
    if c = sep then ([], rest)
    else
      let p := cutByte rest sep
      (c :: p.1, p.2)

/-- Model of Go `strings.HasPrefix` on byte strings. -/
def startsWithBytes : List Nat → List Nat → Bool
  | _, [] => true
  | [], _ :: _ => false
  | c :: cs, p :: ps => c == p && startsWithBytes cs ps

/-- Model of Go `strings.Contains(s, substr)` on byte strings. -/
def goContains (s pat : List Nat) : Bool :=
  match s with
  | [] => startsWithBytes [] pat
  | c :: rest => startsWithBytes (c :: rest) pat || goContains rest pat

/-! ## SHA-256 (crypto/sha256) and hex encoding (encoding/hex)

A direct executable translation of FIPS 180-4 as used by Go's
`crypto/sha256`: `sha256` maps a byte sequence to its 32-byte digest,
`hexEncodeBytes` is lower-case hex as in `hex.EncodeToString`. -/

/-- Truncation to a 32-bit word. -/
def w32 (n : Nat) : Nat := n % 4294967296

/-- Right rotation of a 32-bit word by `n` places (arithmetic form). -/
def rotr (n x : Nat) : Nat := (x % 2 ^ n) * 2 ^ (32 - n) + x / 2 ^ n

/-- SHA-256 `Ch` function; complement is xor with the all-ones word. -/
def shaCh (x y z : Nat) : Nat := (x &&& y) ^^^ ((x ^^^ 4294967295) &&& z)

/-- SHA-256 `Maj` function. -/
def shaMaj (x y z : Nat) : Nat := (x &&& y) ^^^ (x &&& z) ^^^ (y &&& z)

/-- SHA-256 big Sigma-0. -/
def bigSigma0 (x : Nat) : Nat := rotr 2 x ^^^ rotr 13 x ^^^ rotr 22 x

/-- SHA-256 big Sigma-1. -/
def bigSigma1 (x : Nat) : Nat := rotr 6 x ^^^ rotr 11 x ^^^ rotr 25 x

/-- SHA-256 small sigma-0. -/
def smallSigma0 (x : Nat) : Nat := rotr 7 x ^^^ rotr 18 x ^^^ (x / 8)

/-- SHA-256 small sigma-1. -/
def smallSigma1 (x : Nat) : Nat := rotr 17 x ^^^ rotr 19 x ^^^ (x / 1024)

/-- The 64 SHA-256 round constants of FIPS 180-4 (written in decimal;
the first is 0x428a2f98 and so on). -/
def shaK : List Nat :=
  [1116352408, 1899447441, 3049323471, 3921009573, 961987163,
   1508970993, 2453635748, 2870763221, 3624381080, 310598401,
   607225278, 1426881987, 1925078388, 2162078206, 2614888103,
   3248222580, 3835390401, 4022224774, 264347078, 604807628,
   770255983, 1249150122, 1555081692, 1996064986, 2554220882,
   2821834349, 2952996808, 3210313671, 3336571891, 3584528711,
   113926993, 338241895, 666307205, 773529912, 1294757372,
   1396182291, 1695183700, 1986661051, 2177026350, 2456956037,
   2730485921, 2820302411, 3259730800, 3345764771, 3516065817,
   3600352804, 4094571909, 275423344, 430227734, 506948616,
   659060556, 883997877, 958139571, 1322822218, 1537002063,
   1747873779, 1955562222, 2024104815, 2227730452, 2361852424,
   2428436474, 2756734187, 3204031479, 3329325298]

/-- The initial SHA-256 hash state of FIPS 180-4 (decimal; the first
word is 0x6a09e667 and so on). -/
def shaH0 : List Nat :=
  [1779033703, 3144134277, 1013904242, 2773480762,
   1359893119, 2600822924, 528734635, 1541459225]

/-- Big-endian bytes of a 64-bit length value. -/
def be64 (n : Nat) : List Nat :=
  [n / 2 ^ 56 % 256, n / 2 ^ 48 % 256, n / 2 ^ 40 % 256, n / 2 ^ 32 % 256,
   n / 2 ^ 24 % 256, n / 2 ^ 16 % 256, n / 2 ^ 8 % 256, n % 256]

/-- SHA-256 padding: a `0x80` byte, zeros to 56 mod 64, then the bit length. -/
def padMessage (msg : List Nat) : List Nat :=
  msg ++ 128 :: List.replicate ((120 - (msg.length + 1) % 64) % 64) 0 ++ be64 (8 * msg.length)

/-- A big-endian 32-bit word from four bytes. -/
def beWord (b0 b1 b2 b3 : Nat) : Nat := ((b0 * 256 + b1) * 256 + b2) * 256 + b3

/-- Group a byte sequence into big-endian 32-bit words. -/
def bytesToWords : List Nat → List Nat
  | b0 :: b1 :: b2 :: b3 :: rest => beWord b0 b1 b2 b3 :: bytesToWords rest
  | _ => []

/-- Big-endian bytes of a 32-bit word. -/
def wordBytes (w : Nat) : List Nat := [w / 2 ^ 24 % 256, w / 2 ^ 16 % 256, w / 2 ^ 8 % 256, w % 256]

/-- Split a padded message into 64-byte blocks; the first argument is
structural fuel (any value at least the number of blocks gives the same
result, and `chunk64 l.length l` always suffices). -/
def chunk64 : Nat → List Nat → List (List Nat)
  | 0, _ => []
  | _ + 1, [] => []
  | fuel + 1, l => l.take 64 :: chunk64 fuel (l.drop 64)

/-- One message-schedule extension step: appends the next `W` word. -/
def scheduleStep (w : List Nat) : List Nat :=
  w ++ [w32 (smallSigma1 (w.getD (w.length - 2) 0) + w.getD (w.length - 7) 0 +
             smallSigma0 (w.getD (w.length - 15) 0) + w.getD (w.length - 16) 0)]

/-- The 64-word message schedule of one block. -/
def schedule (block : List Nat) : List Nat :=
  (List.range 48).foldl (fun w _ => scheduleStep w) (bytesToWords block)

/-- One SHA-256 compression round on the eight-word working state. -/
def shaRound (s : List Nat) (k w : Nat) : List Nat :=
  match s with
  | [a, b, c, d, e, f, g, h] =>
    let t1 := w32 (h + bigSigma1 e + shaCh e f g + k + w)
    let t2 := w32 (bigSigma0 a + shaMaj a b c)
    [w32 (t1 + t2), a, b, c, w32 (d + t1), e, f, g]
  | _ => s

/-- Process one 64-byte block, updating the running hash state. -/
def processBlock (H : List Nat) (block : List Nat) : List Nat :=
  let s := ((shaK.zip (schedule block)).foldl (fun s kw => shaRound s kw.1 kw.2) H)
  List.zipWith (fun h v => w32 (h + v)) H s

/-- SHA-256 digest (32 bytes) of a byte sequence. -/
def sha256 (msg : List Nat) : List Nat :=
  let padded := padMessage msg
  ((chunk64 padded.length padded).foldl processBlock shaH0).flatMap wordBytes

/-- One lower-case hex digit, as in Go's `encoding/hex`. -/
def hexDigitL (n : Nat) : Nat := if n < 10 then 48 + n else 87 + n

/-- Lower-case hex encoding of bytes, as `hex.EncodeToString`. -/
def hexEncodeBytes (bs : List Nat) : List Nat :=
  bs.flatMap (fun b => [hexDigitL (b / 16), hexDigitL (b % 16)])

/-! ## net/url query handling, as used by `sanitizeURL`

The source's `sanitizeURL` is `url.Parse`, `u.Query()` (i.e. `ParseQuery`
with undecodable pairs dropped), `Del` of sensitive names, `q.Encode()`
and `u.String()`.  The model below follows those library functions on the
query component byte-for-byte, and models `url.Parse`'s failure
conditions (`urlParseFails`) byte-for-byte following `parse` with
`viaRequest = false`: control bytes, a leading colon (missing protocol
scheme), a colon in the first segment of a schemeless rootless path,
userinfo/host/port validation inside an authority, and malformed
percent-escapes in the path and fragment — on failure the source
returns the input unchanged.  On success, the non-query components
(scheme, host, path, fragment) are carried verbatim, whereas `net/url`
may additionally re-normalize their case or escaping; that normalization
never introduces or removes an unescaped `?` or `#`, so the query-level
properties proved here are unaffected by it. -/

/-- Is this byte an ASCII hex digit (as Go `ishex`)? -/
def isHexByte (c : Nat) : Bool :=
  (48 ≤ c && c ≤ 57) || (97 ≤ c && c ≤ 102) || (65 ≤ c && c ≤ 70)

/-- Value of an ASCII hex digit (as Go `unhex`). -/
def unhexByte (c : Nat) : Nat :=
  if c ≤ 57 then c - 48 else if c ≤ 70 then c - 55 else c - 87

/-- Go `url.QueryUnescape`: percent-decoding with `+` decoded as space;
`none` models the `EscapeError` on an invalid escape. -/
def queryUnescape : List Nat → Option (List Nat)
  | [] => some []
  | c :: rest =>
    if c = 37 then
      match rest with
      | a :: b :: rest2 =>
        if isHexByte a && isHexByte b then
          (queryUnescape rest2).map (fun t => (16 * unhexByte a + unhexByte b) :: t)
        else none
      | _ => none
    else if c = 43 then (queryUnescape rest).map (fun t => 32 :: t)
    else (queryUnescape rest).map (fun t => c :: t)

/-- Bytes Go's query escaping leaves unescaped (alphanumerics, `-_.~`). -/
def isUnreservedByte (c : Nat) : Bool :=
  (65 ≤ c && c ≤ 90) || (97 ≤ c && c ≤ 122) || (48 ≤ c && c ≤ 57) ||
  c == 45 || c == 95 || c == 46 || c == 126

/-- One upper-case hex digit, as Go's escaping uses `"0123456789ABCDEF"`. -/
def hexDigitU (n : Nat) : Nat := if n < 10 then 48 + n else 55 + n

/-- Go `url.QueryEscape`: unreserved bytes kept, space to `+`, the rest
percent-encoded with upper-case hex. -/
def queryEscape : List Nat → List Nat
  | [] => []
  | c :: rest =>
    (if isUnreservedByte c then [c]
     else if c = 32 then [43]
     else [37, hexDigitU (c / 16), hexDigitU (c % 16)]) ++ queryEscape rest

/-- Split on `&` (byte 38), keeping empty segments, as iterating
`strings.Cut(query, "&")` does (the empty segments are skipped later,
exactly as Go's `parseQuery` loop skips an empty `key`). -/
def splitAmp : List Nat → List (List Nat)
  | [] => [[]]
  | c :: rest =>
    if c = 38 then [] :: splitAmp rest
    else
      match splitAmp rest with
      | [] => [[c]]
      | s :: ss => (c :: s) :: ss

/-- One segment of Go's `parseQuery` loop: segments containing `;`,
empty segments, and segments whose key or value fails unescaping are
dropped; otherwise the segment is cut at the first `=` and both sides
are query-unescaped. -/
def segPair (seg : List Nat) : Option (List Nat × List Nat) :=
  if seg.contains 59 then none
  else if seg = [] then none
  else
    let kv := cutByte seg 61
    match queryUnescape kv.1, queryUnescape kv.2 with
    | some k, some v => some (k, v)
    | _, _ => none

/-- All successfully parsed `(name, value)` pairs of a raw query, in
order, as collected by `url.Values` via `u.Query()` (which ignores the
parse error and keeps the successfully parsed pairs). -/
def parseQueryPairs (q : List Nat) : List (List Nat × List Nat) :=
  (splitAmp q).filterMap segPair

/-- Byte-wise lexicographic order on byte strings, Go's `string` order
used by `slices.Sort` in `Values.Encode`. -/
def byteLe : List Nat → List Nat → Bool
  | [], _ => true
  | _ :: _, [] => false
  | a :: as, b :: bs => if a < b then true else if b < a then false else byteLe as bs

/-- `byteLe` as a relation, for use with sorting lemmas. -/
def byteLeP (a b : List Nat) : Prop := byteLe a b = true

instance : DecidableRel byteLeP := fun a b => inferInstanceAs (Decidable (byteLe a b = true))

/-- The distinct keys of the parsed pairs, sorted as `Values.Encode`
sorts the map's keys. -/
def sortedKeys (pairs : List (List Nat × List Nat)) : List (List Nat) :=
  List.insertionSort byteLeP ((pairs.map Prod.fst).dedup)

/-- The pairs regrouped by key in sorted key order, values kept in
encounter order — the iteration order of `Values.Encode`. -/
def groupedPairs (pairs : List (List Nat × List Nat)) : List (List Nat × List Nat) :=
  (sortedKeys pairs).flatMap (fun k => pairs.filter (fun kv => kv.1 == k))

/-- One `key=value` unit of `Values.Encode` (both sides query-escaped). -/
def encodePair (kv : List Nat × List Nat) : List Nat :=
  queryEscape kv.1 ++ 61 :: queryEscape kv.2

/-- Join segments with `&` (byte 38), as `Values.Encode` does. -/
def joinAmp : List (List Nat) → List Nat
  | [] => []
  | [s] => s
  | s :: rest => s ++ 38 :: joinAmp rest

/-- Go `url.Values.Encode` applied to parsed pairs. -/
def encodeValues (pairs : List (List Nat × List Nat)) : List Nat :=
  joinAmp ((groupedPairs pairs).map encodePair)

/-- The deny-listed query parameter names (`sensitiveQueryParams`). -/
def sensitiveQueryParams : List (List Nat) :=
  [asciiBytes "apikey", asciiBytes "api_key", asciiBytes "api-key",
   asciiBytes "token", asciiBytes "access_token", asciiBytes "authorization"]

/-- `isSensitiveParam` from the source: lower-case the name and compare
with each deny-list entry. -/
def isSensitiveParam (name : List Nat) : Bool :=
  sensitiveQueryParams.contains (lowerBytes name)

/-- Whether a byte sequence contains an ASCII control byte, Go's
`stringContainsCTLByte` check that makes `url.Parse` fail. -/
def containsCtlByte (l : List Nat) : Bool := l.any (fun b => b < 32 || b == 127)

/-- An ASCII letter. -/
def isAlphaByte (c : Nat) : Bool := (65 ≤ c && c ≤ 90) || (97 ≤ c && c ≤ 122)

/-- An ASCII digit. -/
def isDigitByte (c : Nat) : Bool := 48 ≤ c && c ≤ 57

/-- Every `%` is followed by two hex digits — the only failure condition
of net/url unescaping in the path, fragment and user-password modes. -/
def validPct : List Nat → Bool
  | [] => true
  | 37 :: a :: b :: rest => isHexByte a && isHexByte b && validPct rest
  | 37 :: _ => false
  | _ :: rest => validPct rest

/-- Go `shouldEscape` in host (and zone) mode: true when the byte may
not appear raw in a host.  Alphanumerics, the RFC 3986 unreserved marks
and the sub-delims plus the extra characters Go allows raw in hosts are
permitted; every other ASCII byte must be escaped; bytes at 0x80 and
above report true here (matching Go), though `validHostBytes` lets them
through raw exactly as Go's unescape does. -/
def shouldEscapeHost (c : Nat) : Bool :=
  !((65 ≤ c && c ≤ 90) || (97 ≤ c && c ≤ 122) || (48 ≤ c && c ≤ 57) ||
    c == 45 || c == 95 || c == 46 || c == 126 ||
    c == 33 || c == 36 || c == 38 || c == 39 || c == 40 || c == 41 ||
    c == 42 || c == 43 || c == 44 || c == 59 || c == 61 || c == 58 ||
    c == 91 || c == 93 || c == 60 || c == 62 || c == 34)

/-- Go's unescape in `encodeHost` mode succeeds: escapes are well-formed
and decode at or above 0x80 unless literally `%25`; raw ASCII bytes
needing escape are invalid host characters; bytes at 0x80 and above pass
through raw. -/
def validHostBytes : List Nat → Bool
  | [] => true
  | 37 :: a :: b :: rest =>
    isHexByte a && isHexByte b && (8 ≤ unhexByte a || (a == 50 && b == 53)) &&
      validHostBytes rest
  | 37 :: _ => false
  | c :: rest => (128 ≤ c || !shouldEscapeHost c) && validHostBytes rest

/-- Go's unescape in `encodeZone` mode succeeds: escapes are well-formed
and are literally `%25`, decode to a space, or decode to a byte allowed
raw in hosts; raw bytes are checked as in hosts. -/
def validZoneBytes : List Nat → Bool
  | [] => true
  | 37 :: a :: b :: rest =>
    isHexByte a && isHexByte b &&
      ((a == 50 && b == 53) || 16 * unhexByte a + unhexByte b == 32 ||
        !shouldEscapeHost (16 * unhexByte a + unhexByte b)) &&
      validZoneBytes rest
  | 37 :: _ => false
  | c :: rest => (128 ≤ c || !shouldEscapeHost c) && validZoneBytes rest

/-- Go `validOptionalPort`: empty, or a colon followed by digits only. -/
def validOptionalPort : List Nat → Bool
  | [] => true
  | 58 :: rest => rest.all (fun b => 48 ≤ b && b ≤ 57)
  | _ => false

/-- Go `validUserinfo` on one byte: the ASCII characters a userinfo may
contain (any byte at 0x80 and above makes the rune check fail). -/
def validUserinfoByte (c : Nat) : Bool :=
  (65 ≤ c && c ≤ 90) || (97 ≤ c && c ≤ 122) || (48 ≤ c && c ≤ 57) ||
  c == 45 || c == 46 || c == 95 || c == 58 || c == 126 || c == 33 || c == 36 ||
  c == 38 || c == 39 || c == 40 || c == 41 || c == 42 || c == 43 || c == 44 ||
  c == 59 || c == 61 || c == 37 || c == 64

/-- Split at the LAST occurrence of a byte (Go `strings.LastIndex`),
returning the parts before and after it, or `none` when absent. -/
def splitAtLastByte (s : List Nat) (sep : Nat) : Option (List Nat × List Nat) :=
  match s with
  | [] => none
  | c :: rest =>
    match splitAtLastByte rest sep with
    | some p => some (c :: p.1, p.2)
    | none => if c = sep then some ([], rest) else none

/-- Index of the first occurrence of the literal `%25` (Go
`strings.Index(s, "%25")` as used for IPv6 zones). -/
def indexOfPct25 : List Nat → Option Nat
  | 37 :: 50 :: 53 :: _ => some 0
  | [] => none
  | _ :: rest => (indexOfPct25 rest).map (· + 1)

/-- Go `parseHost` fails: a bracketed host needs a closing bracket and a
valid optional port, an IPv6 zone is unescaped in three parts, an
unbracketed host's last colon must start a valid port, and the host
bytes must unescape in host mode. -/
def parseHostFails (host : List Nat) : Bool :=
  match host with
  | 91 :: _ =>
    match splitAtLastByte host 93 with
    | none => true
    | some p =>
      if !validOptionalPort p.2 then true
      else
        match indexOfPct25 p.1 with
        | some zi =>
          !(validHostBytes (p.1.take zi) && validZoneBytes (p.1.drop zi) &&
            validHostBytes (93 :: p.2))
        | none => !validHostBytes host
  | _ =>
    match splitAtLastByte host 58 with
    | none => !validHostBytes host
    | some p =>
      if !validOptionalPort (58 :: p.2) then true
      else !validHostBytes host

/-- Go `parseAuthority` fails: the host part (after the last `@`) must
parse, and a userinfo must pass the character check and unescape (cut at
the first colon into user and password when one is present). -/
def parseAuthorityFails (authority : List Nat) : Bool :=
  match splitAtLastByte authority 64 with
  | none => parseHostFails authority
  | some p =>
    if parseHostFails p.2 then true
    else if !(p.1.all validUserinfoByte) then true
    else if p.1.contains 58 then
      !(validPct (cutByte p.1 58).1 && validPct (cutByte p.1 58).2)
    else !(validPct p.1)

/-- Scan the tail of a candidate scheme (Go `getScheme`): after a
leading letter, letters, digits and `+`/`-`/`.` may precede the colon;
returns the bytes after the colon when one ends a well-formed scheme,
`none` when the input has no scheme. -/
def schemeSplit : List Nat → Option (List Nat)
  | [] => none
  | c :: rest =>
    if c = 58 then some rest
    else if isAlphaByte c || isDigitByte c || c == 43 || c == 45 || c == 46 then
      schemeSplit rest
    else none

/-- Go `getScheme`: `none` models the "missing protocol scheme" error
(a leading colon); otherwise whether a scheme was found, and the rest of
the URL after it. -/
def getSchemeRest (u : List Nat) : Option (Bool × List Nat) :=
  match u with
  | [] => some (false, [])
  | c :: rest =>
    if c = 58 then none
    else if isAlphaByte c then
      match schemeSplit rest with
      | some r => some (true, r)
      | none => some (false, u)
    else some (false, u)

/-- Go `parse(u, false)` fails on the pre-fragment part of a URL:
control bytes; a leading colon; for a schemeless rootless path, a colon
in the first segment, then path escape validation; for an authority
(`//`), userinfo/host/port validation, then path escape validation; a
rootless path under a scheme is opaque and always succeeds (its query
was already cut off). -/
def parsePartFails (u : List Nat) : Bool :=
  if containsCtlByte u then true
  else
    match getSchemeRest u with
    | none => true
    | some hr =>
      let hasScheme := hr.1
      let rest := hr.2
      let forceQuery := rest.getLast? == some 63 && !(rest.dropLast.contains 63)
      let restNQ := if forceQuery then rest.dropLast else (cutByte rest 63).1
      if !(startsWithBytes restNQ (asciiBytes "/")) then
        if hasScheme then false
        else if ((cutByte restNQ 47).1).contains 58 then true
        else !(validPct restNQ)
      else if (hasScheme || !(startsWithBytes restNQ (asciiBytes "///"))) &&
          startsWithBytes restNQ (asciiBytes "//") then
        let afterSlashes := restNQ.drop 2
        let authority := (cutByte afterSlashes 47).1
        let pathPart :=
          if afterSlashes.contains 47 then 47 :: (cutByte afterSlashes 47).2 else []
        parseAuthorityFails authority || !(validPct pathPart)
      else !(validPct restNQ)

/-- Go `url.Parse` fails: the fragment is cut at the first `#` before
parsing, the pre-fragment part must parse, and `setFragment` must
unescape the fragment. -/
def urlParseFails (rawURL : List Nat) : Bool :=
  parsePartFails (cutByte rawURL 35).1 || !(validPct (cutByte rawURL 35).2)

/-- `sanitizeURL` from the source: parse, drop sensitive query
parameters, re-encode; on parse failure return the input unchanged.
The fragment is everything after the first `#` (cut before parsing, as
`url.Parse` does); `forceQuery` models `u.ForceQuery` (URL ending in a
lone `?`); the query is everything between the first `?` and the
fragment.  (The `?` cut is performed here on the whole pre-fragment
string; Go cuts after stripping the scheme, which contains no `?`, so
the resulting base, query and force flag are identical.) -/
def sanitizeURL (rawURL : List Nat) : List Nat :=
  if urlParseFails rawURL then rawURL
  else
    let beforeFrag := (cutByte rawURL 35).1
    let frag := (cutByte rawURL 35).2
    let forceQuery := beforeFrag.getLast? == some 63 && !(beforeFrag.dropLast.contains 63)
    let base := if forceQuery then beforeFrag.dropLast else (cutByte beforeFrag 63).1
    let rawQuery := if forceQuery then [] else (cutByte beforeFrag 63).2
    let keep := (parseQueryPairs rawQuery).filter (fun kv => !isSensitiveParam kv.1)
    let newQuery := encodeValues keep
    base ++ (if forceQuery || !newQuery.isEmpty then 63 :: newQuery else [])
         ++ (if frag.isEmpty then [] else 35 :: frag)

/-- The raw query component of a URL string: the part of the pre-fragment
portion after the first `?`. -/
def queryOf (u : List Nat) : List Nat := (cutByte (cutByte u 35).1 63).2

/-- The query parameters `sanitizeURL` keeps: the parsed pairs of the raw
query with the sensitive-named ones removed. -/
def keptPairs (rawURL : List Nat) : List (List Nat × List Nat) :=
  (parseQueryPairs (queryOf rawURL)).filter (fun kv => !isSensitiveParam kv.1)

/-! ## The HTTP request model, `cacheKey`, and the caching decorator -/

/-- The fields of `http.Request` the middleware reads: `method` and `url`
are the bytes of `req.Method` and `req.URL.String()`, `path` is
`req.URL.Path`, and `body` models the single-read body stream —
`none` for a nil body, `some (.error e)` for a stream whose read fails,
`some (.ok bs)` for an unconsumed stream holding `bs`. -/
structure Request where
  method : List Nat
  url : List Nat
  path : String
  headers : List (String × List String)
  body : Option (Except String (List Nat))

/-- The byte sequence fed to the hash by `cacheKey`: the concatenated
writes of method, URL string, and body bytes. -/
def cacheKeyInput (method url body : List Nat) : List Nat := method ++ url ++ body

/-- `cacheKey` from the source: hex-encoded SHA-256 over method, URL and
body bytes; a nil body contributes nothing; a readable body is fully
read, hashed, and the request's body is replaced by a fresh unconsumed
stream over the same bytes; a failing read aborts with the error.
Returns (key, body bytes, updated request). -/
def cacheKey (req : Request) : Except String (List Nat × List Nat × Request) :=
  match req.body with
  | none => .ok (hexEncodeBytes (sha256 (cacheKeyInput req.method req.url [])), [], req)
  | some (.error e) => .error e
  | some (.ok bs) =>
    .ok (hexEncodeBytes (sha256 (cacheKeyInput req.method req.url bs)), bs,
         { req with body := some (.ok bs) })

/-- `CachedResponse` from the source. -/
structure CachedResponse where
  StatusCode : Int
  Header : List (String × List String)
  Body : List Nat

/-- The fields of `http.Response` the middleware touches; `body` models
the single-read response stream like `Request.body`. -/
structure Response where
  statusCode : Int
  header : List (String × List String)
  body : Except String (List Nat)
  request : Request

/-- The observable outcome of one `cachingDoer.Do` call: the returned
value, the `Get` calls (url, key) and `Set` calls (url, key, response)
issued to the external cache, and how many times the wrapped inner
transport's `Do` ran. -/
structure DoOutcome where
  result : Except String Response
  gets : List (List Nat × List Nat)
  sets : List (List Nat × List Nat × CachedResponse)
  innerCalls : Nat

/-- `cachingDoer.Do` from the source, with the external cache's `Get`
and the inner transport passed as function parameters (`get` returning
`none` models `ok = false`).  Header cloning and byte cloning are
identities in this pure model. -/
def cachingDo (get : List Nat → List Nat → Option CachedResponse)
    (inner : Request → Except String Response) (req : Request) : DoOutcome :=
  match cacheKey req with
  | .error e => { result := .error e, gets := [], sets := [], innerCalls := 0 }
  | .ok (key, _bodyBytes, req2) =>
    let rawURL := sanitizeURL req2.url
    match get rawURL key with
    | some cached =>
      { result := .ok { statusCode := cached.StatusCode, header := cached.Header,
                        body := .ok cached.Body, request := req2 },
        gets := [(rawURL, key)], sets := [], innerCalls := 0 }
    | none =>
      match inner req2 with
      | .error e =>
        { result := .error e, gets := [(rawURL, key)], sets := [], innerCalls := 1 }
      | .ok resp =>
        match resp.body with
        | .error e =>
          { result := .error e, gets := [(rawURL, key)], sets := [], innerCalls := 1 }
        | .ok body =>
          let skipCache := goContains req2.url (asciiBytes "/rateLimits")
          if skipCache then
            { result := .ok { resp with body := .ok body },
              gets := [(rawURL, key)], sets := [], innerCalls := 1 }
          else
            { result := .ok { resp with body := .ok body },
              gets := [(rawURL, key)],
              sets := [(sanitizeURL req2.url, key,
                        { StatusCode := resp.statusCode, Header := resp.header, Body := body })],
              innerCalls := 1 }

/-- Lookup in a key-indexed in-memory cache (the test file's `mapCache`
keyed by cache key; the url argument is ignored, as there). -/
def mapCacheGet (store : List (List Nat × CachedResponse)) :
    List Nat → List Nat → Option CachedResponse :=
  fun _ key => List.lookup key store

/-- Store into the key-indexed in-memory cache (Go map assignment). -/
def mapCacheSet (store : List (List Nat × CachedResponse)) (key : List Nat)
    (resp : CachedResponse) : List (List Nat × CachedResponse) :=
  match store with
  | [] => [(key, resp)]
  | (k, r) :: t => if k == key then (key, resp) :: t else (k, r) :: mapCacheSet t key resp

/-- Apply the `Set` calls of one outcome to the in-memory cache. -/
def applySets (store : List (List Nat × CachedResponse))
    (sets : List (List Nat × List Nat × CachedResponse)) : List (List Nat × CachedResponse) :=
  sets.foldl (fun s e => mapCacheSet s e.2.1 e.2.2) store

/-- Issue the same request twice through the caching decorator over an
initially empty in-memory cache (the test scenario), counting total
dispatches to the wrapped transport. -/
def runTwo (inner : Request → Except String Response) (req : Request) : Nat :=
  let o1 := cachingDo (mapCacheGet []) inner req
  let o2 := cachingDo (mapCacheGet (applySets [] o1.sets)) inner req
  o1.innerCalls + o2.innerCalls

/-! ## Per-route API-key selection and usage classification -/

/-- Go `strings.HasPrefix` on the char level (the paths and patterns
involved are ASCII, where char and byte prefixes coincide). -/
def listHasPref : List Char → List Char → Bool
  | _, [] => true
  | [], _ :: _ => false
  | c :: cs, p :: ps => c == p && listHasPref cs ps

/-- Go `strings.HasPrefix` on strings. -/
def strHasPref (s pat : String) : Bool := listHasPref s.data pat.data

/-- Go `strings.TrimPrefix`: drop the pattern if present, else unchanged. -/
def strTrimPref (s pat : String) : String :=
  if strHasPref s pat then String.mk (s.data.drop pat.data.length) else s

/-- `APIKeys` from the source. -/
structure APIKeys where
  DataAnalytics : String
  PDFLegalEntities : String
  PDFIndividuals : String
  Affiliates : String

/-- `apiKeyForPath` from the source: ordered prefix rules on the path
after stripping one leading slash, defaulting to the data/analytics key. -/
def apiKeyForPath (keys : APIKeys) (path : String) : String :=
  let path := strTrimPref path "/"
  if strHasPref path "v1/contractors/pdf-file/" then keys.PDFLegalEntities
  else if strHasPref path "v1/individuals/pdf-reports" then keys.PDFIndividuals
  else if strHasPref path "v1/affiliates" then keys.Affiliates
  else keys.DataAnalytics

/-- `http.Header.Set`: replace the values of the key with a one-element
list, inserting if absent ("Authorization" is already in canonical form,
so canonicalization is the identity here). -/
def headerSet (h : List (String × List String)) (k v : String) : List (String × List String) :=
  match h with
  | [] => [(k, [v])]
  | (k2, vs) :: t => if k2 == k then (k, [v]) :: t else (k2, vs) :: headerSet t k v

/-- Header lookup (first entry with the key). -/
def headerGet (h : List (String × List String)) (k : String) : Option (List String) :=
  match h with
  | [] => none
  | (k2, vs) :: t => if k2 == k then some vs else headerGet t k

/-- The request editor registered by `WithAPIKeys`: overwrite the
Authorization header with `bearer ` and the selected key (the editor
returns nil unconditionally, so it is modelled as a total function). -/
def withAPIKeysEdit (keys : APIKeys) (req : Request) : Request :=
  { req with headers := headerSet req.headers "Authorization"
                          ("bearer " ++ apiKeyForPath keys req.path) }

/-- `APIType` from the source (`custom`, `analysis`, `data`). -/
inductive APIType where
  | custom
  | analysis
  | data
deriving DecidableEq, Repr

/-- The `custom` branch's path patterns of `aPITypeForPath`. -/
def customPats : List String :=
  ["v1/contractors/pdf-file/", "v1/contractorsPdf/", "v1/individuals/pdf-reports",
   "v1/individualsPdfReports", "v1/affiliates", "v1/setam/"]

/-- The `analysis` branch's path patterns of `aPITypeForPath`. -/
def analysisPats : List String :=
  ["v1/history/", "v1/usrAdministrativeServicesResults/", "v1/usrDocuments/",
   "v1/expressAnalysis/", "v1/marketScoring/", "v1/financialScoring/",
   "v1/investigationsLegal", "v1/investigationsNatural", "v1/fig",
   "v1/individualsFigCompanies", "v1/courtCaseGroup/", "v1/encumbrances/details/",
   "v1/encumbrances/resultdetails/", "v1/realEstate/details/",
   "v1/realEstate/resultdetails/", "v1/tenders/risks/", "v1/sanctions"]

/-- `aPITypeForPath` from the source: strip one leading slash, then
first-match prefix rules (a `switch` whose cases list the patterns). -/
def aPITypeForPath (path : String) : APIType :=
  let path := strTrimPref path "/"
  if customPats.any (fun p => strHasPref path p) then .custom
  else if analysisPats.any (fun p => strHasPref path p) then .analysis
  else .data

/-- Go `strings.Cut` at a one-char separator on the char level. -/
def cutChars : List Char → Char → List Char × List Char
  | [], _ => ([], [])
  | c :: rest, sep =>
    if c == sep then ([], rest)
    else
      let p := cutChars rest sep
      (c :: p.1, p.2)

/-- The request editor registered by `WithUsageTracking`: cut the path at
`?`, classify, invoke the callback once, mutate nothing, return nil.
The returned list records the callback invocations (category, path). -/
def usageEdit (req : Request) : Except String Request × List (APIType × String) :=
  let path := String.mk (cutChars req.path.data '?').1
  (.ok req, [(aPITypeForPath path, path)])

end Youscore

namespace Youscore

/-! ## Helper lemmas -/

/-- `cacheKey` never changes the method, URL, path or headers of the
request it hands on. -/
theorem cacheKey_ok_fields {req : Request} {k bb : List Nat} {req2 : Request}
    (h : cacheKey req = .ok (k, bb, req2)) :
    req2.url = req.url ∧ req2.method = req.method ∧ req2.path = req.path ∧
    req2.headers = req.headers := by
  rcases hb : req.body with _ | e | bs
  · simp [cacheKey, hb] at h
    obtain ⟨-, -, h3⟩ := h
    subst h3
    exact ⟨rfl, rfl, rfl, rfl⟩
  · simp [cacheKey, hb] at h
  · simp [cacheKey, hb] at h
    obtain ⟨-, -, h3⟩ := h
    subst h3
    exact ⟨rfl, rfl, rfl, rfl⟩

/-- On a cache miss the inner transport is dispatched exactly once,
whatever it returns. -/
theorem cachingDo_innerCalls_of_miss {get : List Nat → List Nat → Option CachedResponse}
    {inner : Request → Except String Response} {req : Request}
    {k bb : List Nat} {req2 : Request}
    (hkey : cacheKey req = .ok (k, bb, req2))
    (hget : get (sanitizeURL req2.url) k = none) :
    (cachingDo get inner req).innerCalls = 1 := by
  simp only [cachingDo, hkey, hget]
  rcases hi : inner req2 with e | resp
  · simp
  · simp only []
    rcases hb : resp.body with e | body
    · simp
    · by_cases hs : goContains req2.url (asciiBytes "/rateLimits") <;> simp [hs]

/-- The separator never occurs in the before-part of a cut. -/
theorem cutByte_sep_not_mem_fst (l : List Nat) (sep : Nat) : sep ∉ (cutByte l sep).1 := by
  induction l with
  | nil => simp [cutByte]
  | cons c rest ih =>
    by_cases h : c = sep
    · simp [cutByte, h]
    · simp only [cutByte, if_neg h]
      intro hmem
      rcases List.mem_cons.mp hmem with hh | hm
      · exact h hh.symm
      · exact ih hm

/-- Every byte of the before-part of a cut comes from the input. -/
theorem cutByte_fst_subset (l : List Nat) (sep : Nat) : ∀ b ∈ (cutByte l sep).1, b ∈ l := by
  induction l with
  | nil => simp [cutByte]
  | cons c rest ih =>
    by_cases h : c = sep
    · simp [cutByte, h]
    · simp only [cutByte, if_neg h]
      intro b hb
      rcases List.mem_cons.mp hb with hh | hm
      · exact hh ▸ List.mem_cons_self _ _
      · exact List.mem_cons_of_mem _ (ih b hm)

/-- Every byte of the after-part of a cut comes from the input. -/
theorem cutByte_snd_subset (l : List Nat) (sep : Nat) : ∀ b ∈ (cutByte l sep).2, b ∈ l := by
  induction l with
  | nil => simp [cutByte]
  | cons c rest ih =>
    by_cases h : c = sep
    · simp [cutByte, h]
      exact fun b hb => Or.inr hb
    · simp only [cutByte, if_neg h]
      exact fun b hb => List.mem_cons_of_mem _ (ih b hb)

/-- Cutting at the first (explicit) separator occurrence. -/
theorem cutByte_append {a : List Nat} (sep : Nat) (b : List Nat) (h : sep ∉ a) :
    cutByte (a ++ sep :: b) sep = (a, b) := by
  induction a with
  | nil => simp [cutByte]
  | cons c a2 ih =>
    have hc : c ≠ sep := fun hh => h (hh ▸ List.mem_cons_self _ _)
    have ha2 : sep ∉ a2 := fun hm => h (List.mem_cons_of_mem _ hm)
    simp [cutByte, hc, ih ha2]

/-- Cutting when the separator is absent returns the input and nothing. -/
theorem cutByte_of_not_mem {l : List Nat} {sep : Nat} (h : sep ∉ l) : cutByte l sep = (l, []) := by
  induction l with
  | nil => simp [cutByte]
  | cons c rest ih =>
    have hc : c ≠ sep := fun hh => h (hh ▸ List.mem_cons_self _ _)
    have hr : sep ∉ rest := fun hm => h (List.mem_cons_of_mem _ hm)
    simp [cutByte, hc, ih hr]

/-- `splitAmp` never returns an empty list of segments. -/
theorem splitAmp_ne_nil (l : List Nat) : splitAmp l ≠ [] := by
  cases l with
  | nil => simp [splitAmp]
  | cons c rest =>
    by_cases h : c = 38
    · simp [splitAmp, h]
    · simp only [splitAmp, if_neg h]
      rcases hs : splitAmp rest with _ | ⟨s, ss⟩ <;> simp

/-- Splitting a separator-free byte string yields one segment. -/
theorem splitAmp_of_not_mem {l : List Nat} (h : 38 ∉ l) : splitAmp l = [l] := by
  induction l with
  | nil => rfl
  | cons c rest ih =>
    have hc : c ≠ 38 := fun hh => h (hh ▸ List.mem_cons_self _ _)
    have hr : 38 ∉ rest := fun hm => h (List.mem_cons_of_mem _ hm)
    simp [splitAmp, hc, ih hr]

/-- Splitting at the first (explicit) separator occurrence. -/
theorem splitAmp_append {a : List Nat} (b : List Nat) (h : 38 ∉ a) :
    splitAmp (a ++ 38 :: b) = a :: splitAmp b := by
  induction a with
  | nil => simp [splitAmp]
  | cons c a2 ih =>
    have hc : c ≠ 38 := fun hh => h (hh ▸ List.mem_cons_self _ _)
    have ha2 : 38 ∉ a2 := fun hm => h (List.mem_cons_of_mem _ hm)
    simp only [List.cons_append, splitAmp, if_neg hc]
    simp only [List.append_eq]
    rw [ih ha2]

/-- Every byte of every segment comes from the split input. -/
theorem splitAmp_subset (q : List Nat) : ∀ s ∈ splitAmp q, ∀ b ∈ s, b ∈ q := by
  induction q with
  | nil =>
    intro s hs
    simp [splitAmp] at hs
    simp [hs]
  | cons c rest ih =>
    intro s hs
    by_cases h : c = 38
    · simp only [splitAmp, if_pos h] at hs
      rcases List.mem_cons.mp hs with rfl | hm
      · simp
      · exact fun b hb => List.mem_cons_of_mem _ (ih s hm b hb)
    · simp only [splitAmp, if_neg h] at hs
      rcases hsp : splitAmp rest with _ | ⟨s2, ss⟩
      · exact absurd hsp (splitAmp_ne_nil rest)
      · rw [hsp] at hs
        rcases List.mem_cons.mp hs with rfl | hm
        · intro b hb
          rcases List.mem_cons.mp hb with rfl | hb2
          · exact List.mem_cons_self _ _
          · exact List.mem_cons_of_mem _ (ih s2 (hsp ▸ List.mem_cons_self _ _) b hb2)
        · exact fun b hb =>
            List.mem_cons_of_mem _ (ih s (hsp ▸ List.mem_cons_of_mem _ hm) b hb)

/-- Hex digits emitted by the escaper decode back to their value and are
unreserved bytes. -/
theorem hexDigitU_spec : ∀ x < 16, isHexByte (hexDigitU x) = true ∧
    unhexByte (hexDigitU x) = x ∧ isUnreservedByte (hexDigitU x) = true := by
  decide

/-- Unfolding of `queryUnescape` on any cons cell. -/
theorem queryUnescape_cons (c : Nat) (rest : List Nat) :
    queryUnescape (c :: rest) =
      if c = 37 then
        (match rest with
         | a :: b :: rest2 =>
           if isHexByte a && isHexByte b then
             (queryUnescape rest2).map (fun t => (16 * unhexByte a + unhexByte b) :: t)
           else none
         | _ => none)
      else if c = 43 then (queryUnescape rest).map (fun t => 32 :: t)
      else (queryUnescape rest).map (fun t => c :: t) := by
  cases rest with
  | nil => rfl
  | cons a rest1 =>
    cases rest1 with
    | nil => rfl
    | cons b rest2 => rfl

/-- A lone `%` fails unescaping. -/
theorem queryUnescape_pct_short1 : queryUnescape [37] = none := rfl

/-- A `%` with a single following byte fails unescaping. -/
theorem queryUnescape_pct_short2 (a : Nat) : queryUnescape [37, a] = none := rfl

/-- Unescaping at a `%` with two following bytes. -/
theorem queryUnescape_pct (a b : Nat) (rest2 : List Nat) :
    queryUnescape (37 :: a :: b :: rest2) =
      if isHexByte a && isHexByte b then
        (queryUnescape rest2).map (fun t => (16 * unhexByte a + unhexByte b) :: t)
      else none := by
  rw [queryUnescape_cons]
  rfl

/-- Unescaping at a `+`. -/
theorem queryUnescape_plus (rest : List Nat) :
    queryUnescape (43 :: rest) = (queryUnescape rest).map (fun t => 32 :: t) := by
  rw [queryUnescape_cons]
  rfl

/-- Unescaping at an ordinary byte. -/
theorem queryUnescape_other (c : Nat) (rest : List Nat) (h37 : c ≠ 37) (h43 : c ≠ 43) :
    queryUnescape (c :: rest) = (queryUnescape rest).map (fun t => c :: t) := by
  rw [queryUnescape_cons, if_neg h37, if_neg h43]

/-- A hex digit's value is below 16. -/
theorem unhexByte_lt {c : Nat} (h : isHexByte c = true) : unhexByte c < 16 := by
  simp [isHexByte] at h
  unfold unhexByte
  rcases h with ⟨h1, h2⟩ | ⟨h1, h2⟩ | ⟨h1, h2⟩ <;> split_ifs <;> omega

/-- Auxiliary strong induction (on a length bound) for `queryUnescape_lt`. -/
theorem queryUnescapeLtAux : ∀ (n : Nat) (s t : List Nat), s.length ≤ n →
    (∀ b ∈ s, b < 256) → queryUnescape s = some t → ∀ b ∈ t, b < 256 := by
  intro n
  induction n with
  | zero =>
    intro s t hlen hs h
    have hnil : s = [] := List.length_eq_zero.mp (Nat.le_zero.mp hlen)
    subst hnil
    have h2 : ([] : List Nat) = t := by injection h
    subst h2
    simp
  | succ n ih =>
    intro s t hlen hs h
    rcases s with _ | ⟨c, rest⟩
    · have h2 : ([] : List Nat) = t := by injection h
      subst h2
      simp
    have hc : c < 256 := hs c (List.mem_cons_self _ _)
    have hrest : ∀ b ∈ rest, b < 256 := fun b hb => hs b (List.mem_cons_of_mem _ hb)
    have hlrest : rest.length ≤ n := by simp at hlen; omega
    by_cases h37 : c = 37
    · subst h37
      rcases rest with _ | ⟨a, rest1⟩
      · rw [queryUnescape_pct_short1] at h
        exact absurd h (by simp)
      rcases rest1 with _ | ⟨b2, rest2⟩
      · rw [queryUnescape_pct_short2] at h
        exact absurd h (by simp)
      rw [queryUnescape_pct] at h
      by_cases hhex : (isHexByte a && isHexByte b2) = true
      · rw [if_pos hhex] at h
        rcases ho : queryUnescape rest2 with _ | t2 <;> rw [ho] at h
        · exact absurd h (by simp)
        · simp only [Option.map_some', Option.some.injEq] at h
          subst h
          obtain ⟨hha, hhb⟩ := Bool.and_eq_true_iff.mp hhex
          have ha := unhexByte_lt hha
          have hb := unhexByte_lt hhb
          intro b hb2
          rcases List.mem_cons.mp hb2 with rfl | hm
          · omega
          · have hl2 : rest2.length ≤ n := by simp at hlen; omega
            exact ih rest2 t2 hl2 (fun b hb3 => hrest b (by simp [hb3])) ho b hm
      · rw [if_neg hhex] at h
        exact absurd h (by simp)
    · by_cases h43 : c = 43
      · subst h43
        rw [queryUnescape_plus] at h
        rcases ho : queryUnescape rest with _ | t2 <;> rw [ho] at h
        · exact absurd h (by simp)
        · simp only [Option.map_some', Option.some.injEq] at h
          subst h
          intro b hb
          rcases List.mem_cons.mp hb with rfl | hm
          · omega
          · exact ih rest t2 hlrest hrest ho b hm
      · rw [queryUnescape_other c rest h37 h43] at h
        rcases ho : queryUnescape rest with _ | t2 <;> rw [ho] at h
        · exact absurd h (by simp)
        · simp only [Option.map_some', Option.some.injEq] at h
          subst h
          intro b hb
          rcases List.mem_cons.mp hb with rfl | hm
          · exact hc
          · exact ih rest t2 hlrest hrest ho b hm

/-- Unescaping produces bytes below 256 when the input bytes are. -/
theorem queryUnescape_lt {s t : List Nat} (hs : ∀ b ∈ s, b < 256)
    (h : queryUnescape s = some t) : ∀ b ∈ t, b < 256 :=
  queryUnescapeLtAux s.length s t (Nat.le_refl _) hs h

/-- Every byte the escaper emits is unreserved, `+`, or `%`. -/
theorem queryEscape_mem {s : List Nat} (hs : ∀ b ∈ s, b < 256) :
    ∀ b ∈ queryEscape s, isUnreservedByte b = true ∨ b = 43 ∨ b = 37 := by
  induction s with
  | nil => simp [queryEscape]
  | cons c t ih =>
    have hc : c < 256 := hs c (List.mem_cons_self _ _)
    have ht : ∀ b ∈ t, b < 256 := fun b hb => hs b (List.mem_cons_of_mem _ hb)
    intro b hb
    simp only [queryEscape, List.mem_append] at hb
    rcases hb with hb | hb
    · by_cases h1 : isUnreservedByte c
      · rw [if_pos h1] at hb
        simp at hb
        exact Or.inl (hb ▸ h1)
      · rw [if_neg h1] at hb
        by_cases h2 : c = 32
        · rw [if_pos h2] at hb
          simp at hb
          exact Or.inr (Or.inl hb)
        · rw [if_neg h2] at hb
          have hdiv : c / 16 < 16 := by omega
          have hmod : c % 16 < 16 := by omega
          rcases List.mem_cons.mp hb with rfl | hb2
          · exact Or.inr (Or.inr rfl)
          · rcases List.mem_cons.mp hb2 with rfl | hb3
            · exact Or.inl (hexDigitU_spec _ hdiv).2.2
            · rcases List.mem_cons.mp hb3 with rfl | hb4
              · exact Or.inl (hexDigitU_spec _ hmod).2.2
              · exact absurd hb4 (List.not_mem_nil _)
    · exact ih ht b hb

/-- None of the structural bytes `&`, `;`, `=`, `#`, `?` ever appears in
escaper output. -/
theorem queryEscape_not_special {s : List Nat} (hs : ∀ b ∈ s, b < 256) :
    38 ∉ queryEscape s ∧ 59 ∉ queryEscape s ∧ 61 ∉ queryEscape s ∧
    35 ∉ queryEscape s ∧ 63 ∉ queryEscape s := by
  refine ⟨?_, ?_, ?_, ?_, ?_⟩ <;> intro hmem <;>
    rcases queryEscape_mem hs _ hmem with h | h | h <;> exact absurd h (by decide)

/-- Unescaping inverts escaping on byte strings. -/
theorem queryUnescape_queryEscape : ∀ (s : List Nat), (∀ b ∈ s, b < 256) →
    queryUnescape (queryEscape s) = some s := by
  intro s
  induction s with
  | nil => intro _; rfl
  | cons c t ih =>
    intro hs
    have hc : c < 256 := hs c (List.mem_cons_self _ _)
    have ht : ∀ b ∈ t, b < 256 := fun b hb => hs b (List.mem_cons_of_mem _ hb)
    by_cases h1 : isUnreservedByte c
    · have h37 : ¬(c = 37) := fun hh => by rw [hh] at h1; exact absurd h1 (by decide)
      have h43 : ¬(c = 43) := fun hh => by rw [hh] at h1; exact absurd h1 (by decide)
      rw [queryEscape, if_pos h1, List.singleton_append, queryUnescape_other c _ h37 h43, ih ht]
      rfl
    · by_cases h2 : c = 32
      · subst h2
        rw [queryEscape, if_neg h1, if_pos rfl, List.singleton_append, queryUnescape_plus,
          ih ht]
        rfl
      · have hdiv : c / 16 < 16 := by omega
        have hmod : c % 16 < 16 := by omega
        obtain ⟨ha1, ha2, -⟩ := hexDigitU_spec (c / 16) hdiv
        obtain ⟨hb1, hb2, -⟩ := hexDigitU_spec (c % 16) hmod
        have hval : 16 * (c / 16) + c % 16 = c := by omega
        rw [queryEscape, if_neg h1, if_neg h2]
        simp only [List.cons_append, List.nil_append]
        rw [queryUnescape_pct, if_pos (by rw [ha1, hb1]; rfl), ih ht]
        simp only [Option.map_some', Option.some.injEq]
        rw [ha2, hb2, hval]

/-- Every byte an encoded `key=value` unit contains is `=`, unreserved,
`+`, or `%`. -/
theorem encodePair_mem {kv : List Nat × List Nat}
    (h1 : ∀ b ∈ kv.1, b < 256) (h2 : ∀ b ∈ kv.2, b < 256) :
    ∀ b ∈ encodePair kv, b = 61 ∨ isUnreservedByte b = true ∨ b = 43 ∨ b = 37 := by
  obtain ⟨k, v⟩ := kv
  intro b hb
  simp only [encodePair, List.mem_append, List.mem_cons] at hb
  rcases hb with hb | hb | hb
  · exact Or.inr (queryEscape_mem h1 b hb)
  · exact Or.inl hb
  · exact Or.inr (queryEscape_mem h2 b hb)

/-- The bytes `&`, `;`, `#`, `?` never occur in an encoded unit. -/
theorem encodePair_not_mem {kv : List Nat × List Nat}
    (h1 : ∀ b ∈ kv.1, b < 256) (h2 : ∀ b ∈ kv.2, b < 256) :
    38 ∉ encodePair kv ∧ 59 ∉ encodePair kv ∧ 35 ∉ encodePair kv ∧ 63 ∉ encodePair kv := by
  refine ⟨?_, ?_, ?_, ?_⟩ <;> intro hm <;>
    rcases encodePair_mem h1 h2 _ hm with h | h | h | h <;> exact absurd h (by decide)

/-- Parsing one encoded `key=value` segment recovers the pair. -/
theorem segPair_encodePair {kv : List Nat × List Nat}
    (h1 : ∀ b ∈ kv.1, b < 256) (h2 : ∀ b ∈ kv.2, b < 256) :
    segPair (encodePair kv) = some kv := by
  obtain ⟨k, v⟩ := kv
  have hno := encodePair_not_mem h1 h2
  have h59 : (encodePair (k, v)).contains 59 = false := by
    rw [← Bool.not_eq_true]
    intro hcon
    exact hno.2.1 (List.elem_iff.mp hcon)
  have hne : ¬(encodePair (k, v) = []) := by
    simp [encodePair]
  have h61k : (61 : Nat) ∉ queryEscape k := (queryEscape_not_special h1).2.2.1
  have hcut : cutByte (encodePair (k, v)) 61 = (queryEscape k, queryEscape v) :=
    cutByte_append 61 _ h61k
  simp only [segPair, h59, Bool.false_eq_true, if_false, if_neg hne, hcut,
    queryUnescape_queryEscape k h1, queryUnescape_queryEscape v h2]

/-- Parsing the `&`-joined encoding of a pair list recovers the list. -/
theorem parse_joinAmp_encode : ∀ (pairs : List (List Nat × List Nat)),
    (∀ kv ∈ pairs, (∀ b ∈ kv.1, b < 256) ∧ (∀ b ∈ kv.2, b < 256)) →
    parseQueryPairs (joinAmp (pairs.map encodePair)) = pairs := by
  intro pairs
  induction pairs with
  | nil => intro _; rfl
  | cons kv rest ih =>
    intro h
    obtain ⟨hk, hv⟩ := h kv (List.mem_cons_self _ _)
    have hrest := fun kv2 hm => h kv2 (List.mem_cons_of_mem _ hm)
    have h38 : 38 ∉ encodePair kv := (encodePair_not_mem hk hv).1
    cases rest with
    | nil =>
      simp only [List.map_cons, List.map_nil, joinAmp, parseQueryPairs,
        splitAmp_of_not_mem h38, List.filterMap_cons, segPair_encodePair hk hv,
        List.filterMap_nil]
    | cons kv2 rest2 =>
      have hih := ih hrest
      simp only [List.map_cons, joinAmp, parseQueryPairs, splitAmp_append _ h38,
        List.filterMap_cons, segPair_encodePair hk hv] at hih ⊢
      rw [hih]

/-- `byteLe` is reflexive. -/
theorem byteLe_refl (a : List Nat) : byteLe a a = true := by
  induction a with
  | nil => rfl
  | cons c t ih => simp [byteLe, ih]

/-- `byteLe` is total. -/
theorem byteLe_total (a b : List Nat) : byteLe a b = true ∨ byteLe b a = true := by
  induction a generalizing b with
  | nil => exact Or.inl rfl
  | cons c t ih =>
    cases b with
    | nil => exact Or.inr rfl
    | cons d u =>
      by_cases h1 : c < d
      · exact Or.inl (by simp [byteLe, h1])
      · by_cases h2 : d < c
        · exact Or.inr (by simp [byteLe, h2])
        · have hcd : c = d := by omega
          subst hcd
          rcases ih u with h | h
          · exact Or.inl (by simp [byteLe, Nat.lt_irrefl, h])
          · exact Or.inr (by simp [byteLe, Nat.lt_irrefl, h])

/-- `byteLe` is transitive. -/
theorem byteLe_trans (a b c : List Nat) (h1 : byteLe a b = true) (h2 : byteLe b c = true) :
    byteLe a c = true := by
  induction a generalizing b c with
  | nil => rfl
  | cons x t ih =>
    cases b with
    | nil => simp [byteLe] at h1
    | cons y u =>
      cases c with
      | nil => simp [byteLe] at h2
      | cons z v =>
        simp only [byteLe] at h1 h2 ⊢
        split_ifs at h1 h2 ⊢ <;>
          first
          | rfl
          | omega
          | exact absurd h1 (by decide)
          | exact absurd h2 (by decide)
          | exact ih u v h1 h2

instance : IsTotal (List Nat) byteLeP := ⟨byteLe_total⟩

instance : IsTrans (List Nat) byteLeP := ⟨byteLe_trans⟩

/-- Regrouping by key neither adds nor removes pairs. -/
theorem mem_groupedPairs {pairs : List (List Nat × List Nat)} {kv : List Nat × List Nat} :
    kv ∈ groupedPairs pairs ↔ kv ∈ pairs := by
  constructor
  · intro h
    rcases List.mem_flatMap.mp h with ⟨k, -, hk2⟩
    exact (List.mem_filter.mp hk2).1
  · intro h
    refine List.mem_flatMap.mpr ⟨kv.1, ?_, ?_⟩
    · have h1 : kv.1 ∈ (pairs.map Prod.fst).dedup :=
        List.mem_dedup.mpr (List.mem_map.mpr ⟨kv, h, rfl⟩)
      exact
        ((List.perm_insertionSort byteLeP ((pairs.map Prod.fst).dedup)).mem_iff).mpr h1
    · exact List.mem_filter.mpr ⟨h, by simp⟩

/-- A list whose elements all equal one value is sorted. -/
theorem sorted_const {k : List Nat} : ∀ (g : List (List Nat)), (∀ x ∈ g, x = k) →
    g.Sorted byteLeP := by
  intro g
  induction g with
  | nil => intro _; exact List.sorted_nil
  | cons x t ih =>
    intro h
    have hx : x = k := h x (List.mem_cons_self _ _)
    refine List.Pairwise.cons ?_ (ih fun y hy => h y (List.mem_cons_of_mem _ hy))
    intro y hy
    have hy2 : y = k := h y (List.mem_cons_of_mem _ hy)
    rw [hx, hy2]
    exact byteLe_refl k

/-- Flattening per-key groups over a sorted key list yields pairs whose
keys appear in sorted order. -/
theorem sorted_flat_groups (pairs : List (List Nat × List Nat)) :
    ∀ (keys : List (List Nat)), keys.Sorted byteLeP →
    ((keys.flatMap (fun k => pairs.filter (fun kv => kv.1 == k))).map Prod.fst).Sorted
      byteLeP := by
  intro keys
  induction keys with
  | nil =>
    intro _
    simp only [List.flatMap_nil, List.map_nil]
    exact List.sorted_nil
  | cons k keys2 ih =>
    intro hs
    have hk : ∀ k2 ∈ keys2, byteLeP k k2 := List.rel_of_sorted_cons hs
    have hs2 : keys2.Sorted byteLeP := hs.of_cons
    simp only [List.flatMap_cons, List.map_append]
    refine List.pairwise_append.mpr ⟨?_, ih hs2, ?_⟩
    · apply sorted_const
      intro x hx
      rcases List.mem_map.mp hx with ⟨kv, hkv, rfl⟩
      exact eq_of_beq (List.mem_filter.mp hkv).2
    · intro a ha b hb
      rcases List.mem_map.mp ha with ⟨kv, hkv, rfl⟩
      have hak : kv.1 = k := eq_of_beq (List.mem_filter.mp hkv).2
      rcases List.mem_map.mp hb with ⟨kv2, hkv2, rfl⟩
      rcases List.mem_flatMap.mp hkv2 with ⟨k2, hk2mem, hkv2f⟩
      have hbk : kv2.1 = k2 := eq_of_beq (List.mem_filter.mp hkv2f).2
      rw [hak, hbk]
      exact hk k2 hk2mem

/-- The keys of the regrouped pairs appear in sorted order. -/
theorem sorted_groupedPairs (pairs : List (List Nat × List Nat)) :
    ((groupedPairs pairs).map Prod.fst).Sorted byteLeP :=
  sorted_flat_groups pairs (sortedKeys pairs)
    (List.sorted_insertionSort byteLeP ((pairs.map Prod.fst).dedup))

/-- Parsing the encoded values recovers the regrouped pairs. -/
theorem parse_encodeValues {pairs : List (List Nat × List Nat)}
    (h : ∀ kv ∈ pairs, (∀ b ∈ kv.1, b < 256) ∧ (∀ b ∈ kv.2, b < 256)) :
    parseQueryPairs (encodeValues pairs) = groupedPairs pairs := by
  rw [encodeValues]
  exact parse_joinAmp_encode (groupedPairs pairs)
    (fun kv hm => h kv (mem_groupedPairs.mp hm))

/-- Every byte of a join of segments is `&` or comes from a segment. -/
theorem joinAmp_mem : ∀ (segs : List (List Nat)) (b : Nat), b ∈ joinAmp segs →
    b = 38 ∨ ∃ s ∈ segs, b ∈ s := by
  intro segs
  induction segs with
  | nil => simp [joinAmp]
  | cons s rest ih =>
    cases rest with
    | nil =>
      intro b hb
      exact Or.inr ⟨s, List.mem_cons_self _ _, by simpa [joinAmp] using hb⟩
    | cons s2 rest2 =>
      intro b hb
      simp only [joinAmp, List.mem_append, List.mem_cons] at hb
      rcases hb with hb | hb | hb
      · exact Or.inr ⟨s, List.mem_cons_self _ _, hb⟩
      · exact Or.inl hb
      · rcases ih b hb with h38 | ⟨s3, hs3, hbs3⟩
        · exact Or.inl h38
        · exact Or.inr ⟨s3, List.mem_cons_of_mem _ hs3, hbs3⟩

/-- Bytes of encoded values are `&`, `=`, unreserved, `+` or `%`. -/
theorem encodeValues_mem {pairs : List (List Nat × List Nat)}
    (h : ∀ kv ∈ pairs, (∀ b ∈ kv.1, b < 256) ∧ (∀ b ∈ kv.2, b < 256)) :
    ∀ b ∈ encodeValues pairs,
      b = 38 ∨ b = 61 ∨ isUnreservedByte b = true ∨ b = 43 ∨ b = 37 := by
  intro b hb
  rw [encodeValues] at hb
  rcases joinAmp_mem _ b hb with h38 | ⟨s, hs, hbs⟩
  · exact Or.inl h38
  · rcases List.mem_map.mp hs with ⟨kv, hkv, rfl⟩
    obtain ⟨hb1, hb2⟩ := h kv (mem_groupedPairs.mp hkv)
    rcases encodePair_mem hb1 hb2 b hbs with h61 | hrest
    · exact Or.inr (Or.inl h61)
    · exact Or.inr (Or.inr hrest)

/-- Neither `#` nor `?` occurs in encoded values. -/
theorem encodeValues_not_35_63 {pairs : List (List Nat × List Nat)}
    (h : ∀ kv ∈ pairs, (∀ b ∈ kv.1, b < 256) ∧ (∀ b ∈ kv.2, b < 256)) :
    35 ∉ encodeValues pairs ∧ 63 ∉ encodeValues pairs := by
  constructor <;> intro hm <;>
    rcases encodeValues_mem h _ hm with h2 | h2 | h2 | h2 | h2 <;> exact absurd h2 (by decide)

/-- A successfully parsed segment determines its pair by unescaping the
two sides of the first `=`. -/
theorem segPair_some {seg : List Nat} {kv : List Nat × List Nat}
    (h : segPair seg = some kv) :
    queryUnescape (cutByte seg 61).1 = some kv.1 ∧
    queryUnescape (cutByte seg 61).2 = some kv.2 := by
  simp only [segPair] at h
  by_cases h59 : seg.contains 59 = true
  · rw [if_pos h59] at h
    exact absurd h (by simp)
  · rw [if_neg h59] at h
    by_cases hne : seg = []
    · rw [if_pos hne] at h
      exact absurd h (by simp)
    · rw [if_neg hne] at h
      rcases ho1 : queryUnescape (cutByte seg 61).1 with _ | k
      · rw [ho1] at h
        rcases ho2 : queryUnescape (cutByte seg 61).2 with _ | v <;> rw [ho2] at h <;>
          exact absurd h (by simp)
      · rcases ho2 : queryUnescape (cutByte seg 61).2 with _ | v
        · rw [ho1, ho2] at h
          exact absurd h (by simp)
        · rw [ho1, ho2] at h
          simp only [Option.some.injEq] at h
          subst h
          exact ⟨by simp [ho1], by simp [ho2]⟩

/-- Parsed pairs of a byte-bounded query are byte-bounded. -/
theorem parseQueryPairs_lt {q : List Nat} (hq : ∀ b ∈ q, b < 256) :
    ∀ kv ∈ parseQueryPairs q, (∀ b ∈ kv.1, b < 256) ∧ (∀ b ∈ kv.2, b < 256) := by
  intro kv hm
  rw [parseQueryPairs] at hm
  rcases List.mem_filterMap.mp hm with ⟨seg, hseg, hsp⟩
  have hsegb : ∀ b ∈ seg, b < 256 := fun b hb => hq b (splitAmp_subset q seg hseg b hb)
  obtain ⟨h1, h2⟩ := segPair_some hsp
  constructor
  · exact queryUnescape_lt (fun b hb => hsegb b (cutByte_fst_subset seg 61 b hb)) h1
  · exact queryUnescape_lt (fun b hb => hsegb b (cutByte_snd_subset seg 61 b hb)) h2

/-- A list whose last element is known splits off that element. -/
theorem getLastDecomp {l : List Nat} {a : Nat} (h : l.getLast? = some a) :
    l = l.dropLast ++ [a] := by
  have hne : l ≠ [] := by intro hn; subst hn; simp at h
  have h2 := List.dropLast_concat_getLast hne
  rw [(List.getLast_eq_iff_getLast_eq_some hne).mpr h] at h2
  exact h2.symm

/-- Under the force-query condition the raw query component is empty. -/
theorem rawQuery_force {raw : List Nat}
    (hforce : ((cutByte raw 35).1.getLast? == some 63 &&
        !((cutByte raw 35).1.dropLast.contains 63)) = true) :
    queryOf raw = [] := by
  obtain ⟨hl, hnc⟩ := Bool.and_eq_true_iff.mp hforce
  have hlast : (cutByte raw 35).1.getLast? = some 63 := eq_of_beq hl
  simp only [Bool.not_eq_true'] at hnc
  simp at hnc
  have hdec := getLastDecomp hlast
  rw [queryOf, hdec, cutByte_append 63 [] hnc]

/-- The query component of the sanitized URL is exactly the re-encoding
of the kept (non-sensitive, successfully parsed) pairs. -/
theorem queryOf_sanitizeURL (raw : List Nat) (hb : ∀ b ∈ raw, b < 256)
    (hctl : urlParseFails raw = false) :
    queryOf (sanitizeURL raw) = encodeValues (keptPairs raw) := by
  have hBF35 : (35 : Nat) ∉ (cutByte raw 35).1 := cutByte_sep_not_mem_fst raw 35
  have hkb : ∀ kv ∈ keptPairs raw, (∀ b ∈ kv.1, b < 256) ∧ (∀ b ∈ kv.2, b < 256) := by
    intro kv hm
    have hq : ∀ b ∈ queryOf raw, b < 256 := by
      intro b hb2
      exact hb b (cutByte_fst_subset raw 35 b (cutByte_snd_subset _ 63 b hb2))
    exact parseQueryPairs_lt hq kv (List.mem_filter.mp hm).1
  obtain ⟨hno35, hno63⟩ := encodeValues_not_35_63 hkb
  simp only [sanitizeURL, hctl, Bool.false_eq_true, if_false]
  by_cases hforce : ((cutByte raw 35).1.getLast? == some 63 &&
      !((cutByte raw 35).1.dropLast.contains 63)) = true
  · -- force-query branch
    obtain ⟨hl, hnc⟩ := Bool.and_eq_true_iff.mp hforce
    simp only [Bool.not_eq_true'] at hnc
    simp at hnc
    have h35d : (35 : Nat) ∉ (cutByte raw 35).1.dropLast :=
      fun hm => hBF35 (List.mem_of_mem_dropLast hm)
    have hkept : keptPairs raw = [] := by
      rw [keptPairs, rawQuery_force hforce]
      rfl
    have hev0 : encodeValues ((parseQueryPairs ([] : List Nat)).filter
        (fun kv => !isSensitiveParam kv.1)) = [] := rfl
    simp only [hforce, if_true, Bool.true_or, hev0, hkept]
    have hev1 : encodeValues ([] : List (List Nat × List Nat)) = [] := rfl
    rw [hev1]
    have h35X : (35 : Nat) ∉ (cutByte raw 35).1.dropLast ++ 63 :: ([] : List Nat) := by
      intro hm
      rcases List.mem_append.mp hm with hm | hm
      · exact h35d hm
      · rcases List.mem_cons.mp hm with hh | hh
        · exact absurd hh (by decide)
        · exact absurd hh (List.not_mem_nil _)
    by_cases hfr : (cutByte raw 35).2.isEmpty = true
    · simp only [hfr, if_true, List.append_nil]
      rw [queryOf]
      simp [cutByte_of_not_mem h35X, cutByte_append 63 [] hnc]
    · simp only [hfr, Bool.false_eq_true, if_false]
      rw [queryOf, cutByte_append 35 _ h35X]
      simp [cutByte_append 63 [] hnc]
  · -- ordinary branch
    simp only [Bool.not_eq_true] at hforce
    have hqk : (parseQueryPairs ((cutByte (cutByte raw 35).1 63).2)).filter
        (fun kv => !isSensitiveParam kv.1) = keptPairs raw := rfl
    simp only [hforce, Bool.false_eq_true, if_false, Bool.false_or, hqk]
    have hb63 : (63 : Nat) ∉ (cutByte (cutByte raw 35).1 63).1 :=
      cutByte_sep_not_mem_fst _ 63
    have hb35 : (35 : Nat) ∉ (cutByte (cutByte raw 35).1 63).1 :=
      fun hm => hBF35 (cutByte_fst_subset _ 63 35 hm)
    by_cases hQ : (encodeValues (keptPairs raw)).isEmpty = true
    · have hQnil : encodeValues (keptPairs raw) = [] := List.isEmpty_iff.mp hQ
      simp only [hQnil, List.isEmpty_nil, Bool.not_true, Bool.false_eq_true, if_false,
        List.append_nil]
      by_cases hfr : (cutByte raw 35).2.isEmpty = true
      · simp only [hfr, if_true, List.append_nil]
        rw [queryOf]
        simp [cutByte_of_not_mem hb35, cutByte_of_not_mem hb63]
      · simp only [hfr, Bool.false_eq_true, if_false]
        rw [queryOf]
        simp [cutByte_append 35 _ hb35, cutByte_of_not_mem hb63]
    · simp only [Bool.not_eq_true] at hQ
      simp only [hQ, Bool.not_false, if_true]
      have h35X : (35 : Nat) ∉ (cutByte (cutByte raw 35).1 63).1 ++
          63 :: encodeValues (keptPairs raw) := by
        intro hm
        rcases List.mem_append.mp hm with hm | hm
        · exact hb35 hm
        · rcases List.mem_cons.mp hm with hh | hh
          · exact absurd hh (by decide)
          · exact hno35 hh
      by_cases hfr : (cutByte raw 35).2.isEmpty = true
      · simp only [hfr, if_true, List.append_nil]
        rw [queryOf]
        simp [cutByte_of_not_mem h35X, cutByte_append 63 _ hb63]
      · simp only [hfr, Bool.false_eq_true, if_false]
        rw [queryOf, cutByte_append 35 _ h35X]
        simp [cutByte_append 63 _ hb63]

/-- Setting a header then reading it back yields exactly the new value. -/
theorem headerGet_headerSet (h : List (String × List String)) (k v : String) :
    headerGet (headerSet h k v) k = some [v] := by
  induction h with
  | nil => simp [headerSet, headerGet]
  | cons e t ih =>
    rcases e with ⟨k2, vs⟩
    by_cases hk : k2 == k
    · simp [headerSet, headerGet, hk]
    · simp only [headerSet, hk]
      simp only [Bool.false_eq_true, if_false]
      simp [headerGet, hk, ih]

example :
    hexEncodeBytes (sha256 []) =
      asciiBytes "e3b0c44298fc1c149afbf4c8996fb92427ae41e4649b934ca495991b7852b855" := by
  decide

example :
    hexEncodeBytes (sha256 (asciiBytes "abc")) =
      asciiBytes "ba7816bf8f01cfea414140de5dae2223b00361a396177a9cb410ff61f20015ad" := by
  decide

/-! ## Concrete fixtures used by witnesses -/

/-- A GET request to a cacheable data route, nil body. -/
def sampleReq : Request :=
  { method := asciiBytes "GET", url := asciiBytes "https://api.youscore.com.ua/v1/usr/00032112",
    path := "/v1/usr/00032112", headers := [], body := none }

/-- The same request with an unconsumed three-byte body. -/
def sampleReqBody : Request := { sampleReq with body := some (.ok [1, 2, 3]) }

/-- The same request with a body whose read fails. -/
def sampleReqBadBody : Request := { sampleReq with body := some (.error "read failed") }

/-- A GET request to the rate-limits route. -/
def sampleReqRate : Request :=
  { method := asciiBytes "GET", url := asciiBytes "https://api.youscore.com.ua/v1/rateLimits",
    path := "/v1/rateLimits", headers := [], body := none }

/-- A fixed 200 response, as the test file's `fakeDoer` returns. -/
def sampleResp (req : Request) : Response :=
  { statusCode := 200, header := [("X-Test", ["value"])],
    body := .ok (asciiBytes "ok:true"), request := req }

/-- A fixed 500 response, to exercise storing of non-2xx statuses. -/
def sampleErrResp (req : Request) : Response :=
  { statusCode := 500, header := [], body := .ok (asciiBytes "oops"), request := req }

/-- A stored cache entry. -/
def sampleCached : CachedResponse :=
  { StatusCode := 200, Header := [("X-Test", ["value"])], Body := asciiBytes "cached" }

/-! ## The claims -/

/-- C1: the cache key is a deterministic function of the
(method, URL, body-bytes) triple — equal triples give equal hexadecimal
digests — and two triples that differ in exactly one of the three inputs
feed different byte sequences to the hash, so their digests differ up to
SHA-256 collision resistance (`cacheKeyInput` is the exact byte sequence
written to the hash by `cacheKey`). -/
theorem claim_C1_cache_key_deterministic_and_distinct (m u b m2 u2 b2 : List Nat) :
    (m = m2 → u = u2 → b = b2 →
      hexEncodeBytes (sha256 (cacheKeyInput m u b)) =
        hexEncodeBytes (sha256 (cacheKeyInput m2 u2 b2))) ∧
    ((m ≠ m2 ∧ u = u2 ∧ b = b2) ∨ (m = m2 ∧ u ≠ u2 ∧ b = b2) ∨
        (m = m2 ∧ u = u2 ∧ b ≠ b2) →
      cacheKeyInput m u b ≠ cacheKeyInput m2 u2 b2) := by
  constructor
  · rintro rfl rfl rfl
    rfl
  · rintro (⟨hm, rfl, rfl⟩ | ⟨rfl, hu, rfl⟩ | ⟨rfl, rfl, hb⟩) heq
    · exact hm (List.append_cancel_right (List.append_cancel_right heq))
    · exact hu (List.append_cancel_left (List.append_cancel_right heq))
    · exact hb (List.append_cancel_left heq)

/-- Witness for C1 at concrete inputs: changing only the method changes
the hashed bytes. -/
theorem claim_C1_witness :
    cacheKeyInput (asciiBytes "GET") (asciiBytes "https://a/x") [] ≠
      cacheKeyInput (asciiBytes "POST") (asciiBytes "https://a/x") [] :=
  (claim_C1_cache_key_deterministic_and_distinct _ _ _ _ _ _).2 (Or.inl ⟨by decide, rfl, rfl⟩)

/-- C6: after key computation on a readable body, the body bytes handed
back for hashing are the original bytes, and the request goes on with an
unconsumed body stream holding exactly those bytes (method and URL
untouched), so the downstream transport sees the complete original body. -/
theorem claim_C6_body_replay (req : Request) (bs : List Nat)
    (h : req.body = some (.ok bs)) :
    cacheKey req = .ok (hexEncodeBytes (sha256 (cacheKeyInput req.method req.url bs)), bs,
      { req with body := some (.ok bs) }) ∧
    ∀ k bb req2, cacheKey req = .ok (k, bb, req2) →
      bb = bs ∧ req2.body = some (.ok bs) ∧ req2.method = req.method ∧ req2.url = req.url := by
  have hck : cacheKey req =
      .ok (hexEncodeBytes (sha256 (cacheKeyInput req.method req.url bs)), bs,
        { req with body := some (.ok bs) }) := by
    simp [cacheKey, h]
  refine ⟨hck, ?_⟩
  intro k bb req2 h2
  rw [hck] at h2
  simp only [Except.ok.injEq, Prod.mk.injEq] at h2
  obtain ⟨-, hbb, hreq⟩ := h2
  subst hreq
  exact ⟨hbb.symm, rfl, rfl, rfl⟩

/-- Witness for C6 at a concrete request with body bytes `[1, 2, 3]`. -/
theorem claim_C6_witness :
    cacheKey sampleReqBody =
      .ok (hexEncodeBytes (sha256 (cacheKeyInput sampleReqBody.method sampleReqBody.url
             [1, 2, 3])), [1, 2, 3], { sampleReqBody with body := some (.ok [1, 2, 3]) }) :=
  (claim_C6_body_replay sampleReqBody [1, 2, 3] rfl).1

/-- C7: a body-read failure is returned as the error with no dispatch and
no cache traffic at all; a transport error is propagated unchanged with
no `Set` call, so the external cache's stored state is unchanged either
way. -/
theorem claim_C7_error_propagation :
    (∀ get inner req e, req.body = some (.error e) →
      cachingDo get inner req =
        { result := .error e, gets := [], sets := [], innerCalls := 0 }) ∧
    (∀ get inner req k bb req2 e, cacheKey req = .ok (k, bb, req2) →
      get (sanitizeURL req2.url) k = none → inner req2 = .error e →
      (cachingDo get inner req).result = .error e ∧ (cachingDo get inner req).sets = [] ∧
      (cachingDo get inner req).innerCalls = 1 ∧
      ∀ store, applySets store (cachingDo get inner req).sets = store) := by
  constructor
  · intro get inner req e hbody
    simp [cachingDo, cacheKey, hbody]
  · intro get inner req k bb req2 e hkey hget hinner
    simp [cachingDo, hkey, hget, hinner, applySets]

/-- Witness for C7: a concrete failing body read and a concrete failing
transport, each leaving the cache untouched. -/
theorem claim_C7_witness :
    cachingDo (fun _ _ => none) (fun _ => .error "net down") sampleReqBadBody =
      { result := .error "read failed", gets := [], sets := [], innerCalls := 0 } ∧
    (cachingDo (fun _ _ => none) (fun _ => .error "net down") sampleReq).result =
      .error "net down" ∧
    (cachingDo (fun _ _ => none) (fun _ => .error "net down") sampleReq).sets = [] :=
  ⟨claim_C7_error_propagation.1 _ _ _ "read failed" rfl,
   (claim_C7_error_propagation.2 (fun _ _ => none) (fun _ => .error "net down") sampleReq
      _ _ sampleReq "net down" rfl rfl rfl).1,
   (claim_C7_error_propagation.2 (fun _ _ => none) (fun _ => .error "net down") sampleReq
      _ _ sampleReq "net down" rfl rfl rfl).2.1⟩

/-- C2: when the external cache's `Get` (on sanitized URL and key)
reports found, the decorator returns a response synthesized from the
stored status, headers and body, and the inner transport is never
dispatched; in particular, over an initially empty map cache, a second
identical request after a successful cacheable response leaves the total
transport call count at 1. -/
theorem claim_C2_cache_hit_short_circuits :
    (∀ get inner req k bb req2 cached,
      cacheKey req = .ok (k, bb, req2) →
      get (sanitizeURL req2.url) k = some cached →
      (cachingDo get inner req).result =
        .ok { statusCode := cached.StatusCode, header := cached.Header,
              body := .ok cached.Body, request := req2 } ∧
      (cachingDo get inner req).innerCalls = 0) ∧
    (∀ inner req k bb req2 resp b,
      cacheKey req = .ok (k, bb, req2) →
      inner req2 = .ok resp →
      resp.body = .ok b →
      goContains req.url (asciiBytes "/rateLimits") = false →
      runTwo inner req = 1) := by
  constructor
  · intro get inner req k bb req2 cached hkey hget
    simp [cachingDo, hkey, hget]
  · intro inner req k bb req2 resp b hkey hinner hbody hskip
    have hurl : req2.url = req.url := (cacheKey_ok_fields hkey).1
    have hskip2 : goContains req2.url (asciiBytes "/rateLimits") = false := by
      rw [hurl]; exact hskip
    have hget1 : mapCacheGet [] (sanitizeURL req2.url) k = none := by
      simp [mapCacheGet]
    have h1 : cachingDo (mapCacheGet []) inner req =
        { result := .ok { resp with body := .ok b },
          gets := [(sanitizeURL req2.url, k)],
          sets := [(sanitizeURL req2.url, k,
                    { StatusCode := resp.statusCode, Header := resp.header, Body := b })],
          innerCalls := 1 } := by
      simp [cachingDo, hkey, hget1, hinner, hbody, hskip2]
    have hget2 : mapCacheGet [(k, ({ StatusCode := resp.statusCode, Header := resp.header, Body := b } : CachedResponse))] (sanitizeURL req2.url) k = some ({ StatusCode := resp.statusCode, Header := resp.header, Body := b } : CachedResponse) := by
      simp [mapCacheGet, List.lookup]
    have h2 : (cachingDo (mapCacheGet [(k, ({ StatusCode := resp.statusCode, Header := resp.header, Body := b } : CachedResponse))]) inner req).innerCalls = 0 := by
      simp [cachingDo, hkey, hget2]
    simp only [runTwo, h1]
    simp only [applySets, List.foldl, mapCacheSet]
    rw [h2]

/-- Witness for C2: the hit path at a concrete stored entry, and the
concrete two-request scenario of the test file reaching the transport
once. -/
theorem claim_C2_witness :
    (cachingDo (fun _ _ => some sampleCached)
        (fun r => .ok (sampleResp r)) sampleReq).innerCalls = 0 ∧
    runTwo (fun r => .ok (sampleResp r)) sampleReq = 1 :=
  ⟨(claim_C2_cache_hit_short_circuits.1 (fun _ _ => some sampleCached)
      (fun r => .ok (sampleResp r)) sampleReq _ _ sampleReq sampleCached rfl rfl).2,
   claim_C2_cache_hit_short_circuits.2 (fun r => .ok (sampleResp r)) sampleReq
      _ _ sampleReq (sampleResp sampleReq) (asciiBytes "ok:true") rfl rfl rfl
      (by decide)⟩

/-- C4: a request whose URL contains `/rateLimits` (as any URL with the
path segment `rateLimits` does) never triggers a cache `Set`, while the
`Get` lookup is still performed whenever key computation succeeds; over
an initially empty map cache two identical such requests dispatch to the
transport both times. -/
theorem claim_C4_rate_limits_bypass_storage (inner : Request → Except String Response)
    (req : Request)
    (hrl : goContains req.url (asciiBytes "/rateLimits") = true) :
    (∀ get, (cachingDo get inner req).sets = []) ∧
    (∀ get k bb req2, cacheKey req = .ok (k, bb, req2) →
      (cachingDo get inner req).gets = [(sanitizeURL req.url, k)]) ∧
    (∀ k bb req2, cacheKey req = .ok (k, bb, req2) → runTwo inner req = 2) := by
  have hsets : ∀ get, (cachingDo get inner req).sets = [] := by
    intro get
    rcases hkey : cacheKey req with e | ⟨k, bb, req2⟩
    · simp [cachingDo, hkey]
    · have hurl : req2.url = req.url := (cacheKey_ok_fields hkey).1
      have hrl2 : goContains req2.url (asciiBytes "/rateLimits") = true := by
        rw [hurl]; exact hrl
      rcases hget : get (sanitizeURL req2.url) k with _ | cached
      · simp only [cachingDo, hkey, hget]
        rcases hi : inner req2 with e | resp
        · simp
        · simp only []
          rcases hb : resp.body with e | body
          · simp
          · simp [hrl2]
      · simp [cachingDo, hkey, hget]
  refine ⟨hsets, ?_, ?_⟩
  · intro get k bb req2 hkey
    have hurl : req2.url = req.url := (cacheKey_ok_fields hkey).1
    rw [← hurl]
    rcases hget : get (sanitizeURL req2.url) k with _ | cached
    · have hrl2 : goContains req2.url (asciiBytes "/rateLimits") = true := by
        rw [hurl]; exact hrl
      simp only [cachingDo, hkey, hget]
      rcases hi : inner req2 with e | resp
      · simp
      · simp only []
        rcases hb : resp.body with e | body
        · simp
        · simp [hrl2]
    · simp [cachingDo, hkey, hget]
  · intro k bb req2 hkey
    have hget1 : mapCacheGet [] (sanitizeURL req2.url) k = none := by
      simp [mapCacheGet]
    have hc1 : (cachingDo (mapCacheGet []) inner req).innerCalls = 1 :=
      cachingDo_innerCalls_of_miss hkey hget1
    simp only [runTwo, hsets (mapCacheGet []), applySets, List.foldl]
    rw [hc1]

/-- Witness for C4 at the concrete rate-limits request: no stores, one
lookup, and two transport dispatches for two identical requests. -/
theorem claim_C4_witness :
    (cachingDo (mapCacheGet []) (fun r => .ok (sampleResp r)) sampleReqRate).sets = [] ∧
    runTwo (fun r => .ok (sampleResp r)) sampleReqRate = 2 :=
  ⟨(claim_C4_rate_limits_bypass_storage (fun r => .ok (sampleResp r)) sampleReqRate
      (by decide)).1 (mapCacheGet []),
   (claim_C4_rate_limits_bypass_storage (fun r => .ok (sampleResp r)) sampleReqRate
      (by decide)).2.2 _ _ sampleReqRate rfl⟩

/-- C10: on a cacheable route, every successfully read response is
stored via `Set` whatever its status code — the status appears in the
stored entry unconstrained, so non-2xx responses are stored too. -/
theorem claim_C10_set_ignores_status (get : List Nat → List Nat → Option CachedResponse)
    (inner : Request → Except String Response) (req : Request)
    (k bb : List Nat) (req2 : Request) (resp : Response) (b : List Nat)
    (hkey : cacheKey req = .ok (k, bb, req2))
    (hget : get (sanitizeURL req2.url) k = none)
    (hinner : inner req2 = .ok resp)
    (hbody : resp.body = .ok b)
    (hskip : goContains req.url (asciiBytes "/rateLimits") = false) :
    (cachingDo get inner req).sets =
      [(sanitizeURL req.url, k,
        { StatusCode := resp.statusCode, Header := resp.header, Body := b })] := by
  have hurl : req2.url = req.url := (cacheKey_ok_fields hkey).1
  have hskip2 : goContains req2.url (asciiBytes "/rateLimits") = false := by
    rw [hurl]; exact hskip
  rw [← hurl]
  simp [cachingDo, hkey, hget, hinner, hbody, hskip2]

/-- Witness for C10: a concrete 500 response on a cacheable route is
stored. -/
theorem claim_C10_witness :
    (cachingDo (fun _ _ => none) (fun r => .ok (sampleErrResp r)) sampleReq).sets =
      [(sanitizeURL sampleReq.url,
        hexEncodeBytes (sha256 (cacheKeyInput sampleReq.method sampleReq.url [])),
        { StatusCode := 500, Header := [], Body := asciiBytes "oops" })] :=
  claim_C10_set_ignores_status (fun _ _ => none) (fun r => .ok (sampleErrResp r)) sampleReq
    _ _ sampleReq (sampleErrResp sampleReq) (asciiBytes "oops") rfl rfl rfl rfl (by decide)

/-- C3: every URL the decorator passes to the external cache — in `Get`
lookups and in `Set` stores alike — is the sanitized request URL. -/
theorem claim_C3_cache_sees_sanitized_urls (get : List Nat → List Nat → Option CachedResponse)
    (inner : Request → Except String Response) (req : Request) :
    ((cachingDo get inner req).gets.all (fun g => g.1 == sanitizeURL req.url) &&
     (cachingDo get inner req).sets.all (fun s => s.1 == sanitizeURL req.url)) = true := by
  rcases hkey : cacheKey req with e | ⟨k, bb, req2⟩
  · simp [cachingDo, hkey]
  · have hurl : req2.url = req.url := (cacheKey_ok_fields hkey).1
    rw [← hurl]
    rcases hget : get (sanitizeURL req2.url) k with _ | cached
    · simp only [cachingDo, hkey, hget]
      rcases hi : inner req2 with e | resp
      · simp
      · simp only []
        rcases hb : resp.body with e | body
        · simp
        · by_cases hs : goContains req2.url (asciiBytes "/rateLimits") <;> simp [hs]
    · simp [cachingDo, hkey, hget]

/-- C8: the per-route API-key editor overwrites the Authorization header
with the literal lower-case scheme `bearer ` followed by the key selected
by the ordered prefix rules on the slash-stripped path; the three prefix
rules select their keys in order and everything else gets the default
data/analytics key — in particular `/v1/individuals/full-name-info`. -/
theorem claim_C8_api_key_selection :
    (∀ keys req, headerGet (withAPIKeysEdit keys req).headers "Authorization" =
      some ["bearer " ++ apiKeyForPath keys req.path]) ∧
    (∀ keys path, strHasPref (strTrimPref path "/") "v1/contractors/pdf-file/" = true →
      apiKeyForPath keys path = keys.PDFLegalEntities) ∧
    (∀ keys path, strHasPref (strTrimPref path "/") "v1/contractors/pdf-file/" = false →
      strHasPref (strTrimPref path "/") "v1/individuals/pdf-reports" = true →
      apiKeyForPath keys path = keys.PDFIndividuals) ∧
    (∀ keys path, strHasPref (strTrimPref path "/") "v1/contractors/pdf-file/" = false →
      strHasPref (strTrimPref path "/") "v1/individuals/pdf-reports" = false →
      strHasPref (strTrimPref path "/") "v1/affiliates" = true →
      apiKeyForPath keys path = keys.Affiliates) ∧
    (∀ keys path, strHasPref (strTrimPref path "/") "v1/contractors/pdf-file/" = false →
      strHasPref (strTrimPref path "/") "v1/individuals/pdf-reports" = false →
      strHasPref (strTrimPref path "/") "v1/affiliates" = false →
      apiKeyForPath keys path = keys.DataAnalytics) ∧
    (∀ keys, apiKeyForPath keys "/v1/contractors/pdf-file/XYZ" = keys.PDFLegalEntities) ∧
    (∀ keys, apiKeyForPath keys "/v1/affiliates/anything" = keys.Affiliates) ∧
    (∀ keys, apiKeyForPath keys "/v1/individuals/full-name-info" = keys.DataAnalytics) := by
  refine ⟨?_, ?_, ?_, ?_, ?_, ?_, ?_, ?_⟩
  · intro keys req
    exact headerGet_headerSet req.headers "Authorization" ("bearer " ++ apiKeyForPath keys req.path)
  · intro keys path h1
    simp [apiKeyForPath, h1]
  · intro keys path h1 h2
    simp [apiKeyForPath, h1, h2]
  · intro keys path h1 h2 h3
    simp [apiKeyForPath, h1, h2, h3]
  · intro keys path h1 h2 h3
    simp [apiKeyForPath, h1, h2, h3]
  · intro keys
    rfl
  · intro keys
    rfl
  · intro keys
    rfl

/-- Witness for C8 at a concrete request: the edited header carries the
PDF-individuals key for its matching route. -/
theorem claim_C8_witness :
    headerGet (withAPIKeysEdit
        { DataAnalytics := "da-key", PDFLegalEntities := "pdf-legal-key",
          PDFIndividuals := "pdf-ind-key", Affiliates := "aff-key" }
        { sampleReq with path := "/v1/individuals/pdf-reports/some-result-id" }).headers
      "Authorization" = some ["bearer pdf-ind-key"] ∧
    apiKeyForPath
        { DataAnalytics := "da-key", PDFLegalEntities := "pdf-legal-key",
          PDFIndividuals := "pdf-ind-key", Affiliates := "aff-key" }
        "/v1/contractors/pdf-file/00032112" = "pdf-legal-key" ∧
    apiKeyForPath
        { DataAnalytics := "da-key", PDFLegalEntities := "pdf-legal-key",
          PDFIndividuals := "pdf-ind-key", Affiliates := "aff-key" }
        "/v1/individuals/pdf-reports" = "pdf-ind-key" :=
  ⟨claim_C8_api_key_selection.1
      { DataAnalytics := "da-key", PDFLegalEntities := "pdf-legal-key",
        PDFIndividuals := "pdf-ind-key", Affiliates := "aff-key" }
      { sampleReq with path := "/v1/individuals/pdf-reports/some-result-id" },
   claim_C8_api_key_selection.2.1 _ "/v1/contractors/pdf-file/00032112" (by decide),
   claim_C8_api_key_selection.2.2.1 _ "/v1/individuals/pdf-reports" (by decide) (by decide)⟩

/-- C9: the usage-tracking editor invokes the callback exactly once with
the category the first-match prefix rules assign to the query-stripped
path, never changes the request, and always succeeds; the three sample
routes classify as analysis, custom and data respectively. -/
theorem claim_C9_usage_classifier :
    (∀ req, (usageEdit req).1 = .ok req) ∧
    (∀ req, (usageEdit req).2 =
      [(aPITypeForPath (String.mk (cutChars req.path.data '?').1),
        String.mk (cutChars req.path.data '?').1)]) ∧
    aPITypeForPath "/v1/sanctions" = .analysis ∧
    aPITypeForPath "/v1/affiliates/query" = .custom ∧
    aPITypeForPath "/v1/usr/00032112" = .data :=
  ⟨fun _ => rfl, fun _ => rfl, rfl, rfl, rfl⟩

/-- C5 counterexample: the claim says sanitize removes exactly the
deny-listed parameters and no others, but a parameter whose value has a
malformed percent-escape is dropped too — `a` is not deny-listed, the
input query contains `a=`, and the output no longer does. -/
theorem claim_C5_counterexample :
    sanitizeURL (asciiBytes "http://x/p?a=%zz&b=2") = asciiBytes "http://x/p?b=2" ∧
    isSensitiveParam (asciiBytes "a") = false ∧
    goContains (asciiBytes "http://x/p?a=%zz&b=2") (asciiBytes "a=") = true ∧
    goContains (sanitizeURL (asciiBytes "http://x/p?a=%zz&b=2")) (asciiBytes "a=") = false := by
  refine ⟨by decide, by decide, by decide, by decide⟩

/-- C5 (amended): on a parseable URL, sanitize removes every query
parameter whose decoded name case-insensitively equals a deny-list
entry, and additionally drops any pair that fails query parsing
(malformed percent-escape or a semicolon-bearing segment); every
successfully parsed pair with a non-deny-listed name survives into the
re-encoded query, whose names appear in sorted order; an unparseable URL
(one `url.Parse` rejects, as modelled exactly by `urlParseFails`) is
returned unchanged. -/
theorem claim_C5_sanitize_amended (raw : List Nat) (hb : ∀ b ∈ raw, b < 256) :
    (urlParseFails raw = true → sanitizeURL raw = raw) ∧
    (urlParseFails raw = false →
      (∀ kv ∈ parseQueryPairs (queryOf (sanitizeURL raw)), isSensitiveParam kv.1 = false) ∧
      (∀ kv ∈ parseQueryPairs (queryOf raw), isSensitiveParam kv.1 = false →
        kv ∈ parseQueryPairs (queryOf (sanitizeURL raw))) ∧
      ((parseQueryPairs (queryOf (sanitizeURL raw))).map Prod.fst).Sorted byteLeP) := by
  constructor
  · intro hctl
    simp [sanitizeURL, hctl]
  · intro hctl
    have hq := queryOf_sanitizeURL raw hb hctl
    have hkb : ∀ kv ∈ keptPairs raw, (∀ b ∈ kv.1, b < 256) ∧ (∀ b ∈ kv.2, b < 256) := by
      intro kv hm
      have hqb : ∀ b ∈ queryOf raw, b < 256 := by
        intro b hb2
        exact hb b (cutByte_fst_subset raw 35 b (cutByte_snd_subset _ 63 b hb2))
      exact parseQueryPairs_lt hqb kv (List.mem_filter.mp hm).1
    have hparse : parseQueryPairs (queryOf (sanitizeURL raw)) =
        groupedPairs (keptPairs raw) := by
      rw [hq]
      exact parse_encodeValues hkb
    refine ⟨?_, ?_, ?_⟩
    · intro kv hm
      rw [hparse] at hm
      have h2 := (List.mem_filter.mp (mem_groupedPairs.mp hm)).2
      simpa using h2
    · intro kv hm hsens
      rw [hparse]
      exact mem_groupedPairs.mpr (List.mem_filter.mpr ⟨hm, by simp [hsens]⟩)
    · rw [hparse]
      exact sorted_groupedPairs _

/-- Witness for the amended C5 at the test file's concrete URL: after
sanitizing `?apiKey=secret123&page=1`, the surviving pair `page=1` is in
the output query and the output's names are sorted. -/
theorem claim_C5_witness :
    (asciiBytes "page", asciiBytes "1") ∈
      parseQueryPairs (queryOf (sanitizeURL
        (asciiBytes "https://api.example.com/v1/data?apiKey=secret123&page=1"))) ∧
    ((parseQueryPairs (queryOf (sanitizeURL
        (asciiBytes "https://api.example.com/v1/data?apiKey=secret123&page=1")))).map
      Prod.fst).Sorted byteLeP :=
  ⟨((claim_C5_sanitize_amended
      (asciiBytes "https://api.example.com/v1/data?apiKey=secret123&page=1")
      (by decide)).2 (by decide)).2.1 (asciiBytes "page", asciiBytes "1")
      (by decide) (by decide),
   ((claim_C5_sanitize_amended
      (asciiBytes "https://api.example.com/v1/data?apiKey=secret123&page=1")
      (by decide)).2 (by decide)).2.2⟩

end Youscore
